import Mathlib

/-!
Verification of the idra agent-fleet supervisor against its specification.

The Go sources are shallowly embedded:
* byte strings are lists of naturals (each byte below 256 in real inputs);
* the protowire varint/tag/bytes primitives are translated from
  google.golang.org/protobuf/encoding/protowire as used by the codec;
* the codec (internal/agent/pb/codec.go), the manifest loader and registry
  (internal/agent/manifest.go, registry.go), the stdout handshake parser and
  the runner lifecycle state machine (internal/agent/runner.go) and the
  streaming client (internal/agent/pb/client.go) are translated function by
  function.
-/

/-- A Go byte string: a list of byte values. -/
abbrev GoStr := List Nat

namespace Pb

/-- protowire.AppendVarint: base-128 little-endian with continuation bit. -/
def putVarint (n : Nat) : List Nat :=
  if n < 128 then [n] else (n % 128 + 128) :: putVarint (n / 128)
termination_by n
decreasing_by exact Nat.div_lt_self (by omega) (by omega)

/-- Loop of protowire.ConsumeVarint: index i is the byte position (0-based),
acc the value accumulated so far.  A varint is at most 10 bytes and the tenth
byte must be at most 1 (64-bit overflow check). -/
def consumeVarintAux : List Nat → Nat → Nat → Option (Nat × List Nat)
  | [], _, _ => none
  | b :: rest, i, acc =>
    if b < 128 then
      if i = 9 && 1 < b then none
      else some (acc + b * 128 ^ i, rest)
    else if i = 9 then none
    else consumeVarintAux rest (i + 1) (acc + b % 128 * 128 ^ i)

/-- protowire.ConsumeVarint: value and remaining bytes, or none on error. -/
def consumeVarint (b : List Nat) : Option (Nat × List Nat) :=
  consumeVarintAux b 0 0

theorem consumeVarintAux_length : ∀ (b : List Nat) (i acc v : Nat) (rest : List Nat),
    consumeVarintAux b i acc = some (v, rest) → rest.length < b.length := by
  intro b
  induction b with
  | nil => intro i acc v rest h; simp [consumeVarintAux] at h
  | cons x xs ih =>
    intro i acc v rest h
    simp only [consumeVarintAux] at h
    by_cases hx : x < 128
    · simp only [hx, if_true] at h
      split at h
      · exact absurd h (by simp)
      · simp only [Option.some.injEq, Prod.mk.injEq] at h
        simp [← h.2]
    · simp only [hx, if_false] at h
      split at h
      · exact absurd h (by simp)
      · have := ih _ _ _ _ h
        simp only [List.length_cons]
        omega

theorem consumeVarint_length (b : List Nat) (v : Nat) (rest : List Nat)
    (h : consumeVarint b = some (v, rest)) : rest.length < b.length :=
  consumeVarintAux_length b 0 0 v rest h

theorem consumeVarintAux_append (n : Nat) : ∀ (i acc : Nat) (rest : List Nat),
    i ≤ 9 → n < 2 ^ (64 - 7 * i) →
    consumeVarintAux (putVarint n ++ rest) i acc = some (acc + n * 128 ^ i, rest) := by
  induction n using Nat.strong_induction_on with
  | _ n IH =>
    intro i acc rest hi hn
    rw [putVarint]
    by_cases h : n < 128
    · simp only [if_pos h, List.cons_append, List.nil_append, consumeVarintAux, if_pos h]
      have : ¬(i = 9 && 1 < n) = true := by
        simp only [Bool.and_eq_true, decide_eq_true_eq, not_and]
        intro h9
        subst h9
        have : n < 2 := by simpa using hn
        omega
      simp [this]
    · simp only [if_neg h, List.cons_append]
      have hb : ¬(n % 128 + 128 < 128) := by omega
      have hi9 : i ≠ 9 := by
        intro h9
        subst h9
        have : n < 2 := by simpa using hn
        omega
      simp only [consumeVarintAux, if_neg hb, if_neg hi9]
      have hlt : n / 128 < n := Nat.div_lt_self (by omega) (by omega)
      have hmod : (n % 128 + 128) % 128 = n % 128 := by omega
      have hi' : i + 1 ≤ 9 := by omega
      have hn' : n / 128 < 2 ^ (64 - 7 * (i + 1)) := by
        have h1 : n < 2 ^ (64 - 7 * i) := hn
        have h2 : (64 - 7 * i) = (64 - 7 * (i + 1)) + 7 := by omega
        rw [h2, pow_add] at h1
        refine (Nat.div_lt_iff_lt_mul (by omega : 0 < 128)).mpr ?_
        calc n < 2 ^ (64 - 7 * (i + 1)) * 2 ^ 7 := h1
        _ = 2 ^ (64 - 7 * (i + 1)) * 128 := by norm_num
      rw [hmod, IH (n / 128) hlt (i + 1) _ rest hi' hn']
      congr 1
      congr 1
      have : n = 128 * (n / 128) + n % 128 := (Nat.div_add_mod' n 128).symm ▸ by omega
      calc acc + n % 128 * 128 ^ i + n / 128 * 128 ^ (i + 1)
          = acc + (n % 128 + 128 * (n / 128)) * 128 ^ i := by ring
        _ = acc + n * 128 ^ i := by rw [Nat.add_comm (n % 128), ← this]

theorem consumeVarint_append (n : Nat) (rest : List Nat) (hn : n < 2 ^ 64) :
    consumeVarint (putVarint n ++ rest) = some (n, rest) := by
  have := consumeVarintAux_append n 0 0 rest (by omega) (by simpa using hn)
  simpa [consumeVarint] using this

theorem putVarint_length_le : ∀ (k n : Nat), 1 ≤ k → n < 128 ^ k →
    (putVarint n).length ≤ k := by
  intro k
  induction k with
  | zero => omega
  | succ k ih =>
    intro n _ hn
    rw [putVarint]
    by_cases h : n < 128
    · simp only [if_pos h, List.length_singleton]
      omega
    · simp only [if_neg h, List.length_cons]
      have hk : 1 ≤ k := by
        rcases Nat.eq_zero_or_pos k with h0 | h1
        · subst h0; simp at hn; omega
        · exact h1
      have : n / 128 < 128 ^ k := by
        rw [Nat.div_lt_iff_lt_mul (by omega : 0 < 128)]
        calc n < 128 ^ (k + 1) := hn
        _ = 128 ^ k * 128 := by ring
      have := ih (n / 128) hk this
      omega

/-- protowire.ConsumeBytes: length varint, then that many payload bytes. -/
def consumeBytes (b : List Nat) : Option (List Nat × List Nat) :=
  match consumeVarint b with
  | none => none
  | some (m, rest) =>
    if m ≤ rest.length then some (rest.take m, rest.drop m) else none

/-- protowire.ConsumeTag: a varint whose value v encodes field number
int32(v shifted right by 3) and wire type (v mod 8); field numbers that
truncate to a non-positive int32 are rejected. -/
def consumeTag (b : List Nat) : Option (Nat × Nat × List Nat) :=
  match consumeVarint b with
  | none => none
  | some (v, rest) =>
    let num := v >>> 3 % 2 ^ 32
    if num = 0 ∨ 2 ^ 31 ≤ num then none else some (num, v % 8, rest)

/-- codec.go appendBytes: tag with wire type 2, then length-prefixed data. -/
def appendBytes (b : List Nat) (fieldNum : Nat) (data : List Nat) : List Nat :=
  b ++ putVarint (fieldNum * 8 + 2) ++ putVarint data.length ++ data

/-- codec.go appendString: empty strings are omitted entirely. -/
def appendString (b : List Nat) (fieldNum : Nat) (s : GoStr) : List Nat :=
  if s = [] then b else appendBytes b fieldNum s

theorem consumeBytes_length (b : List Nat) (s rest : List Nat)
    (h : consumeBytes b = some (s, rest)) : rest.length < b.length := by
  unfold consumeBytes at h
  cases hv : consumeVarint b with
  | none => rw [hv] at h; exact absurd h (by simp)
  | some p =>
    obtain ⟨m, r⟩ := p
    rw [hv] at h
    simp only at h
    split at h
    · simp only [Option.some.injEq, Prod.mk.injEq] at h
      have hr := consumeVarint_length b m r hv
      have : rest.length ≤ r.length := by
        rw [← h.2]; simp
      omega
    · exact absurd h (by simp)

theorem consumeTag_length (b : List Nat) (num typ : Nat) (rest : List Nat)
    (h : consumeTag b = some (num, typ, rest)) : rest.length < b.length := by
  unfold consumeTag at h
  cases hv : consumeVarint b with
  | none => rw [hv] at h; exact absurd h (by simp)
  | some p =>
    obtain ⟨v, r⟩ := p
    rw [hv] at h
    simp only at h
    split at h
    · exact absurd h (by simp)
    · simp only [Option.some.injEq, Prod.mk.injEq] at h
      have hr := consumeVarint_length b v r hv
      rw [← h.2.2]
      exact hr

theorem consumeBytes_append (s rest : List Nat) (h : s.length < 2 ^ 64) :
    consumeBytes (putVarint s.length ++ s ++ rest) = some (s, rest) := by
  unfold consumeBytes
  rw [List.append_assoc, consumeVarint_append s.length (s ++ rest) h]
  simp

theorem consumeTag_append (num typ : Nat) (rest : List Nat)
    (h1 : 1 ≤ num) (h2 : num < 2 ^ 31) (h3 : typ < 8) :
    consumeTag (putVarint (num * 8 + typ) ++ rest) = some (num, typ, rest) := by
  unfold consumeTag
  rw [consumeVarint_append (num * 8 + typ) rest (by omega)]
  have hshift : (num * 8 + typ) >>> 3 = num := by
    rw [Nat.shiftRight_eq_div_pow]
    omega
  have hmod8 : (num * 8 + typ) % 8 = typ := by omega
  have hmod32 : num % 2 ^ 32 = num := Nat.mod_eq_of_lt (by omega)
  simp only [hshift, hmod32, hmod8]
  have : ¬(num = 0 ∨ 2 ^ 31 ≤ num) := by omega
  rw [if_neg this]

/-- protowire.ConsumeFieldValue for an unknown field: skip the field body by
wire type (0 varint, 1 fixed64, 2 length-delimited, 3 start-group which
recursively consumes fields until the matching end-group, 5 fixed32; wire
type 4 alone and reserved types are errors).  Returns the remaining bytes;
the subtype bound records that at least one byte is always consumed. -/
def consumeFieldValue (num typ : Nat) (b : List Nat) :
    Option { r : List Nat // r.length < b.length } :=
  if typ = 0 then
    match h : consumeVarint b with
    | none => none
    | some (_, rest) => some ⟨rest, consumeVarint_length b _ rest h⟩
  else if typ = 1 then
    if h8 : 8 ≤ b.length then
      some ⟨b.drop 8, by simp; omega⟩
    else none
  else if typ = 2 then
    match h : consumeBytes b with
    | none => none
    | some (_, rest) => some ⟨rest, consumeBytes_length b _ rest h⟩
  else if typ = 5 then
    if h4 : 4 ≤ b.length then
      some ⟨b.drop 4, by simp; omega⟩
    else none
  else if typ = 3 then
    match h : consumeTag b with
    | none => none
    | some (num2, typ2, rest) =>
      if typ2 = 4 then
        if num2 = num then
          some ⟨rest, consumeTag_length b num2 typ2 rest h⟩
        else none
      else
        match consumeFieldValue num2 typ2 rest with
        | none => none
        | some ⟨rest2, h2⟩ =>
          match consumeFieldValue num 3 rest2 with
          | none => none
          | some ⟨r, h3⟩ =>
            some ⟨r, by
              have := consumeTag_length b num2 typ2 rest h
              omega⟩
  else none
termination_by (b.length, typ)
decreasing_by
  · have := consumeTag_length b num2 typ2 rest h
    exact Prod.Lex.left _ _ (by omega)
  · have := consumeTag_length b num2 typ2 rest h
    exact Prod.Lex.left _ _ (by omega)

/-- pb.TaskRequest (types.go).  The Go metadata field is a string map; it is
embedded as an association list in map-iteration order, with unique keys. -/
structure TaskRequest where
  taskId : GoStr
  skill : GoStr
  input : GoStr
  metadata : List (GoStr × GoStr)
deriving DecidableEq

/-- pb.TaskEvent (types.go). -/
structure TaskEvent where
  taskId : GoStr
  typ : GoStr
  payload : GoStr
deriving DecidableEq

/-- pb.HealthResponse (types.go). -/
structure HealthResponse where
  status : GoStr
  agentName : GoStr
deriving DecidableEq

/-- Go map update m.Metadata with key k set to v: replace the binding of an
existing key, otherwise add the pair. -/
def mapInsert : List (GoStr × GoStr) → GoStr → GoStr → List (GoStr × GoStr)
  | [], k, v => [(k, v)]
  | (k0, v0) :: rest, k, v =>
    if k0 = k then (k0, v) :: rest else (k0, v0) :: mapInsert rest k v

/-- codec.go marshalTaskRequest: fields task_id=1, skill=2, input=3, each
metadata entry a nested key=1/value=2 message in repeated field 4. -/
def marshalTaskRequest (m : TaskRequest) : List Nat :=
  let b := appendString [] 1 m.taskId
  let b := appendString b 2 m.skill
  let b := appendString b 3 m.input
  m.metadata.foldl
    (fun b p => appendBytes b 4 (appendString (appendString [] 1 p.1) 2 p.2)) b

/-- codec.go marshalTaskEvent: task_id=1, type=2, payload=3. -/
def marshalTaskEvent (m : TaskEvent) : List Nat :=
  let b := appendString [] 1 m.taskId
  let b := appendString b 2 m.typ
  appendString b 3 m.payload

/-- codec.go marshalHealthResponse: status=1, agent_name=2. -/
def marshalHealthResponse (m : HealthResponse) : List Nat :=
  let b := appendString [] 1 m.status
  appendString b 2 m.agentName

/-- codec.go unmarshalMapEntry: loop over the entry bytes collecting key
(field 1) and value (field 2); non-bytes fields are skipped. -/
def unmarshalMapEntryLoop (data : List Nat) (k v : GoStr) :
    Except String (GoStr × GoStr) :=
  if data = [] then .ok (k, v)
  else
    match h : consumeTag data with
    | none => .error "invalid map entry tag"
    | some (num, typ, rest) =>
      if typ ≠ 2 then
        match consumeFieldValue num typ rest with
        | none => .error "invalid map entry field"
        | some ⟨rest2, _⟩ => unmarshalMapEntryLoop rest2 k v
      else
        match h2 : consumeBytes rest with
        | none => .error "invalid map entry bytes"
        | some (val, rest2) =>
          if num = 1 then unmarshalMapEntryLoop rest2 val v
          else if num = 2 then unmarshalMapEntryLoop rest2 k val
          else unmarshalMapEntryLoop rest2 k v
termination_by data.length
decreasing_by
  all_goals
    have hA := consumeTag_length _ _ _ _ h
    first
      | (rename_i hlt; omega)
      | (have hB := consumeBytes_length _ _ _ h2; omega)

/-- codec.go unmarshalMapEntry entry point. -/
def unmarshalMapEntry (data : List Nat) : Except String (GoStr × GoStr) :=
  unmarshalMapEntryLoop data [] []

/-- codec.go unmarshalTaskRequest: loop over fields, storing bytes fields
1-3, decoding each field-4 occurrence as a map entry, skipping everything
else by consuming its extent. -/
def unmarshalTaskRequestLoop (data : List Nat) (m : TaskRequest) :
    Except String TaskRequest :=
  if data = [] then .ok m
  else
    match h : consumeTag data with
    | none => .error "invalid tag"
    | some (num, typ, rest) =>
      if typ = 2 then
        match h2 : consumeBytes rest with
        | none => .error ("invalid bytes for field " ++ toString num)
        | some (val, rest2) =>
          if num = 1 then unmarshalTaskRequestLoop rest2 { m with taskId := val }
          else if num = 2 then unmarshalTaskRequestLoop rest2 { m with skill := val }
          else if num = 3 then unmarshalTaskRequestLoop rest2 { m with input := val }
          else if num = 4 then
            match unmarshalMapEntry val with
            | .error e => .error e
            | .ok (k, v) =>
              unmarshalTaskRequestLoop rest2
                { m with metadata := mapInsert m.metadata k v }
          else unmarshalTaskRequestLoop rest2 m
      else
        match consumeFieldValue num typ rest with
        | none => .error ("invalid field " ++ toString num)
        | some ⟨rest2, _⟩ => unmarshalTaskRequestLoop rest2 m
termination_by data.length
decreasing_by
  all_goals
    have hA := consumeTag_length _ _ _ _ h
    first
      | (rename_i hlt; omega)
      | (have hB := consumeBytes_length _ _ _ h2; omega)

/-- codec.go unmarshalTaskRequest entry point (fresh message). -/
def unmarshalTaskRequest (data : List Nat) : Except String TaskRequest :=
  unmarshalTaskRequestLoop data ⟨[], [], [], []⟩

/-- codec.go unmarshalTaskEvent loop. -/
def unmarshalTaskEventLoop (data : List Nat) (m : TaskEvent) :
    Except String TaskEvent :=
  if data = [] then .ok m
  else
    match h : consumeTag data with
    | none => .error "invalid tag"
    | some (num, typ, rest) =>
      if typ = 2 then
        match h2 : consumeBytes rest with
        | none => .error ("invalid bytes for field " ++ toString num)
        | some (val, rest2) =>
          if num = 1 then unmarshalTaskEventLoop rest2 { m with taskId := val }
          else if num = 2 then unmarshalTaskEventLoop rest2 { m with typ := val }
          else if num = 3 then unmarshalTaskEventLoop rest2 { m with payload := val }
          else unmarshalTaskEventLoop rest2 m
      else
        match consumeFieldValue num typ rest with
        | none => .error ("invalid field " ++ toString num)
        | some ⟨rest2, _⟩ => unmarshalTaskEventLoop rest2 m
termination_by data.length
decreasing_by
  all_goals
    have hA := consumeTag_length _ _ _ _ h
    first
      | (rename_i hlt; omega)
      | (have hB := consumeBytes_length _ _ _ h2; omega)

/-- codec.go unmarshalTaskEvent entry point. -/
def unmarshalTaskEvent (data : List Nat) : Except String TaskEvent :=
  unmarshalTaskEventLoop data ⟨[], [], []⟩

/-- codec.go unmarshalHealthResponse loop. -/
def unmarshalHealthResponseLoop (data : List Nat) (m : HealthResponse) :
    Except String HealthResponse :=
  if data = [] then .ok m
  else
    match h : consumeTag data with
    | none => .error "invalid tag"
    | some (num, typ, rest) =>
      if typ = 2 then
        match h2 : consumeBytes rest with
        | none => .error ("invalid bytes for field " ++ toString num)
        | some (val, rest2) =>
          if num = 1 then unmarshalHealthResponseLoop rest2 { m with status := val }
          else if num = 2 then unmarshalHealthResponseLoop rest2 { m with agentName := val }
          else unmarshalHealthResponseLoop rest2 m
      else
        match consumeFieldValue num typ rest with
        | none => .error ("invalid field " ++ toString num)
        | some ⟨rest2, _⟩ => unmarshalHealthResponseLoop rest2 m
termination_by data.length
decreasing_by
  all_goals
    have hA := consumeTag_length _ _ _ _ h
    first
      | (rename_i hlt; omega)
      | (have hB := consumeBytes_length _ _ _ h2; omega)

/-- codec.go unmarshalHealthResponse entry point. -/
def unmarshalHealthResponse (data : List Nat) : Except String HealthResponse :=
  unmarshalHealthResponseLoop data ⟨[], []⟩

theorem putVarint_ne_nil (n : Nat) : putVarint n ≠ [] := by
  rw [putVarint]
  split <;> simp

theorem appendBytes_assoc (b : List Nat) (num : Nat) (data : List Nat) :
    appendBytes b num data = b ++ appendBytes [] num data := by
  simp [appendBytes, List.append_assoc]

theorem appendString_assoc (b : List Nat) (num : Nat) (s : GoStr) :
    appendString b num s = b ++ appendString [] num s := by
  by_cases h : s = []
  · simp [appendString, h]
  · simp [appendString, h, appendBytes, List.append_assoc]

theorem appendBytes_ne_nil (num : Nat) (data : List Nat) (rest : List Nat) :
    appendBytes [] num data ++ rest ≠ [] := by
  simp only [appendBytes, List.nil_append, List.append_assoc]
  intro h
  exact putVarint_ne_nil _ (List.append_eq_nil.mp h).1

theorem consumeTag_appendBytes (num : Nat) (s : GoStr) (rest : List Nat)
    (h1 : 1 ≤ num) (h2 : num < 2 ^ 31) :
    consumeTag (appendBytes [] num s ++ rest)
      = some (num, 2, putVarint s.length ++ (s ++ rest)) := by
  have heq : appendBytes [] num s ++ rest
      = putVarint (num * 8 + 2) ++ (putVarint s.length ++ (s ++ rest)) := by
    simp [appendBytes, List.append_assoc]
  rw [heq, consumeTag_append num 2 _ h1 h2 (by omega)]

/-- Decoding step for one encoded bytes field of a TaskRequest. -/
theorem unmarshalTaskRequestLoop_bytesField (num : Nat) (s : GoStr)
    (rest : List Nat) (m : TaskRequest)
    (h1 : 1 ≤ num) (h2 : num < 2 ^ 31) (hs : s.length < 2 ^ 64) :
    unmarshalTaskRequestLoop (appendBytes [] num s ++ rest) m =
      (if num = 1 then unmarshalTaskRequestLoop rest { m with taskId := s }
       else if num = 2 then unmarshalTaskRequestLoop rest { m with skill := s }
       else if num = 3 then unmarshalTaskRequestLoop rest { m with input := s }
       else if num = 4 then
         (match unmarshalMapEntry s with
          | .error e => .error e
          | .ok (k, v) =>
            unmarshalTaskRequestLoop rest
              { m with metadata := mapInsert m.metadata k v })
       else unmarshalTaskRequestLoop rest m) := by
  conv_lhs => rw [unmarshalTaskRequestLoop]
  rw [if_neg (appendBytes_ne_nil num s rest)]
  have hk := consumeTag_appendBytes num s rest h1 h2
  have hb : consumeBytes (putVarint s.length ++ (s ++ rest)) = some (s, rest) := by
    have := consumeBytes_append s rest hs
    rwa [List.append_assoc] at this
  split
  · rename_i heq
    rw [hk] at heq
    cases heq
  · rename_i num' typ' rest' heq
    rw [hk] at heq
    simp only [Option.some.injEq, Prod.mk.injEq] at heq
    obtain ⟨h3, h4, h5⟩ := heq
    subst h3 h5
    rw [if_pos h4.symm]
    split
    · rename_i heq2
      rw [hb] at heq2
      cases heq2
    · rename_i val rest2 heq2
      rw [hb] at heq2
      simp only [Option.some.injEq, Prod.mk.injEq] at heq2
      obtain ⟨h6, h7⟩ := heq2
      subst h6 h7
      rfl

/-- Decoding step for one encoded bytes field of a map entry. -/
theorem unmarshalMapEntryLoop_bytesField (num : Nat) (s : GoStr)
    (rest : List Nat) (kk vv : GoStr)
    (h1 : 1 ≤ num) (h2 : num < 2 ^ 31) (hs : s.length < 2 ^ 64) :
    unmarshalMapEntryLoop (appendBytes [] num s ++ rest) kk vv =
      unmarshalMapEntryLoop rest (if num = 1 then s else kk)
        (if num = 2 then s else vv) := by
  conv_lhs => rw [unmarshalMapEntryLoop]
  rw [if_neg (appendBytes_ne_nil num s rest)]
  have hk := consumeTag_appendBytes num s rest h1 h2
  have hb : consumeBytes (putVarint s.length ++ (s ++ rest)) = some (s, rest) := by
    have := consumeBytes_append s rest hs
    rwa [List.append_assoc] at this
  split
  · rename_i heq
    rw [hk] at heq
    cases heq
  · rename_i num' typ' rest' heq
    rw [hk] at heq
    simp only [Option.some.injEq, Prod.mk.injEq] at heq
    obtain ⟨h3, h4, h5⟩ := heq
    subst h3 h5
    rw [if_neg (by omega : ¬typ' ≠ 2)]
    split
    · rename_i heq2
      rw [hb] at heq2
      cases heq2
    · rename_i val rest2 heq2
      rw [hb] at heq2
      simp only [Option.some.injEq, Prod.mk.injEq] at heq2
      obtain ⟨h6, h7⟩ := heq2
      subst h6 h7
      by_cases hn1 : num = 1 <;> by_cases hn2 : num = 2 <;> simp [hn1, hn2]

/-- Decoding step for one encoded bytes field of a TaskEvent. -/
theorem unmarshalTaskEventLoop_bytesField (num : Nat) (s : GoStr)
    (rest : List Nat) (m : TaskEvent)
    (h1 : 1 ≤ num) (h2 : num < 2 ^ 31) (hs : s.length < 2 ^ 64) :
    unmarshalTaskEventLoop (appendBytes [] num s ++ rest) m =
      (if num = 1 then unmarshalTaskEventLoop rest { m with taskId := s }
       else if num = 2 then unmarshalTaskEventLoop rest { m with typ := s }
       else if num = 3 then unmarshalTaskEventLoop rest { m with payload := s }
       else unmarshalTaskEventLoop rest m) := by
  conv_lhs => rw [unmarshalTaskEventLoop]
  rw [if_neg (appendBytes_ne_nil num s rest)]
  have hk := consumeTag_appendBytes num s rest h1 h2
  have hb : consumeBytes (putVarint s.length ++ (s ++ rest)) = some (s, rest) := by
    have := consumeBytes_append s rest hs
    rwa [List.append_assoc] at this
  split
  · rename_i heq
    rw [hk] at heq
    cases heq
  · rename_i num' typ' rest' heq
    rw [hk] at heq
    simp only [Option.some.injEq, Prod.mk.injEq] at heq
    obtain ⟨h3, h4, h5⟩ := heq
    subst h3 h5
    rw [if_pos h4.symm]
    split
    · rename_i heq2
      rw [hb] at heq2
      cases heq2
    · rename_i val rest2 heq2
      rw [hb] at heq2
      simp only [Option.some.injEq, Prod.mk.injEq] at heq2
      obtain ⟨h6, h7⟩ := heq2
      subst h6 h7
      rfl

/-- Decoding step for one encoded bytes field of a HealthResponse. -/
theorem unmarshalHealthResponseLoop_bytesField (num : Nat) (s : GoStr)
    (rest : List Nat) (m : HealthResponse)
    (h1 : 1 ≤ num) (h2 : num < 2 ^ 31) (hs : s.length < 2 ^ 64) :
    unmarshalHealthResponseLoop (appendBytes [] num s ++ rest) m =
      (if num = 1 then unmarshalHealthResponseLoop rest { m with status := s }
       else if num = 2 then unmarshalHealthResponseLoop rest { m with agentName := s }
       else unmarshalHealthResponseLoop rest m) := by
  conv_lhs => rw [unmarshalHealthResponseLoop]
  rw [if_neg (appendBytes_ne_nil num s rest)]
  have hk := consumeTag_appendBytes num s rest h1 h2
  have hb : consumeBytes (putVarint s.length ++ (s ++ rest)) = some (s, rest) := by
    have := consumeBytes_append s rest hs
    rwa [List.append_assoc] at this
  split
  · rename_i heq
    rw [hk] at heq
    cases heq
  · rename_i num' typ' rest' heq
    rw [hk] at heq
    simp only [Option.some.injEq, Prod.mk.injEq] at heq
    obtain ⟨h3, h4, h5⟩ := heq
    subst h3 h5
    rw [if_pos h4.symm]
    split
    · rename_i heq2
      rw [hb] at heq2
      cases heq2
    · rename_i val rest2 heq2
      rw [hb] at heq2
      simp only [Option.some.injEq, Prod.mk.injEq] at heq2
      obtain ⟨h6, h7⟩ := heq2
      subst h6 h7
      rfl

theorem consumeFieldValue_varint (num : Nat) (b : List Nat) :
    Option.map Subtype.val (consumeFieldValue num 0 b)
      = Option.map Prod.snd (consumeVarint b) := by
  unfold consumeFieldValue
  split
  · split
    · rename_i heq
      rw [heq]
      simp
    · rename_i v rest heq
      conv_rhs => rw [heq]
      simp
  · rename_i heq
    exact absurd rfl heq

/-- Decoding step skipping a varint-typed field of a TaskRequest. -/
theorem unmarshalTaskRequestLoop_varintField (num v : Nat)
    (rest : List Nat) (m : TaskRequest)
    (h1 : 1 ≤ num) (h2 : num < 2 ^ 31) (hv : v < 2 ^ 64) :
    unmarshalTaskRequestLoop (putVarint (num * 8) ++ (putVarint v ++ rest)) m =
      unmarshalTaskRequestLoop rest m := by
  conv_lhs => rw [unmarshalTaskRequestLoop]
  have hne : putVarint (num * 8) ++ (putVarint v ++ rest) ≠ [] := by
    intro h
    exact putVarint_ne_nil _ (List.append_eq_nil.mp h).1
  rw [if_neg hne]
  have hk : consumeTag (putVarint (num * 8) ++ (putVarint v ++ rest))
      = some (num, 0, putVarint v ++ rest) := by
    have := consumeTag_append num 0 (putVarint v ++ rest) h1 h2 (by omega)
    simpa using this
  have hfv := consumeFieldValue_varint num (putVarint v ++ rest)
  rw [consumeVarint_append v rest hv] at hfv
  split
  · rename_i heq
    rw [hk] at heq
    cases heq
  · rename_i num' typ' rest' heq
    rw [hk] at heq
    simp only [Option.some.injEq, Prod.mk.injEq] at heq
    obtain ⟨h3, h4, h5⟩ := heq
    subst h3 h5
    rw [if_neg (by omega : ¬typ' = 2)]
    split
    · rename_i heq2
      rw [← h4] at heq2
      rw [heq2] at hfv
      cases hfv
    · rename_i rest2 hlt heq2
      rw [← h4] at heq2
      rw [heq2] at hfv
      simp only [Option.map_some'] at hfv
      injection hfv with h6
      rw [h6]

theorem unmarshalMapEntryLoop_nil (kk vv : GoStr) :
    unmarshalMapEntryLoop [] kk vv = .ok (kk, vv) := by
  rw [unmarshalMapEntryLoop]
  simp

theorem putVarint_small_length (n : Nat) (h : n < 128) :
    (putVarint n).length = 1 := by
  rw [putVarint, if_pos h]
  rfl

theorem appendString_length_le (num : Nat) (s : GoStr)
    (hnum : num * 8 + 2 < 128) (hs : s.length < 2 ^ 32) :
    (appendString [] num s).length ≤ 6 + s.length := by
  by_cases h0 : s = []
  · simp [appendString, h0]
  · rw [appendString, if_neg h0]
    have ha : (putVarint (num * 8 + 2)).length = 1 :=
      putVarint_small_length _ hnum
    have hb : (putVarint s.length).length ≤ 5 := by
      refine putVarint_length_le 5 s.length (by omega) ?_
      calc s.length < 2 ^ 32 := hs
      _ ≤ 128 ^ 5 := by norm_num
    simp only [appendBytes, List.nil_append, List.length_append]
    omega

theorem unmarshalMapEntry_roundtrip (k v : GoStr)
    (hk : k.length < 2 ^ 64) (hv : v.length < 2 ^ 64) :
    unmarshalMapEntry (appendString (appendString [] 1 k) 2 v) = .ok (k, v) := by
  unfold unmarshalMapEntry
  rw [appendString_assoc (appendString [] 1 k) 2 v]
  have step2 : ∀ kk : GoStr, unmarshalMapEntryLoop (appendString [] 2 v) kk [] = .ok (kk, v) := by
    intro kk
    by_cases hv0 : v = []
    · subst hv0
      rw [appendString, if_pos rfl, unmarshalMapEntryLoop_nil]
    · rw [appendString, if_neg hv0]
      have h := unmarshalMapEntryLoop_bytesField 2 v [] kk [] (by omega) (by omega) hv
      rw [List.append_nil] at h
      rw [h]
      norm_num
      exact unmarshalMapEntryLoop_nil kk v
  by_cases hk0 : k = []
  · subst hk0
    rw [show appendString [] 1 [] = [] from rfl, List.nil_append, step2]
  · rw [appendString, if_neg hk0,
      unmarshalMapEntryLoop_bytesField 1 k (appendString [] 2 v) [] [] (by omega) (by omega) hk]
    norm_num
    exact step2 k

/-- Decoding step for one encoded map entry of a TaskRequest. -/
theorem unmarshalTaskRequestLoop_entry (k v : GoStr) (rest : List Nat)
    (m : TaskRequest) (hk : k.length < 2 ^ 32) (hv : v.length < 2 ^ 32) :
    unmarshalTaskRequestLoop
        (appendBytes [] 4 (appendString (appendString [] 1 k) 2 v) ++ rest) m =
      unmarshalTaskRequestLoop rest { m with metadata := mapInsert m.metadata k v } := by
  have hlen : (appendString (appendString [] 1 k) 2 v).length < 2 ^ 64 := by
    rw [appendString_assoc, List.length_append]
    have h1 := appendString_length_le 1 k (by omega) hk
    have h2 := appendString_length_le 2 v (by omega) hv
    omega
  rw [unmarshalTaskRequestLoop_bytesField 4 _ rest m (by omega) (by omega) hlen]
  norm_num
  rw [unmarshalMapEntry_roundtrip k v (by omega) (by omega)]

theorem mapInsert_fresh (l : List (GoStr × GoStr)) (k v : GoStr)
    (h : k ∉ l.map Prod.fst) : mapInsert l k v = l ++ [(k, v)] := by
  induction l with
  | nil => rfl
  | cons p r ih =>
    obtain ⟨k0, v0⟩ := p
    simp only [List.map_cons, List.mem_cons] at h
    push_neg at h
    rw [mapInsert, if_neg (fun he => h.1 he.symm), List.cons_append, ih h.2]

theorem unmarshalTaskRequestLoop_string1 (s : GoStr) (rest : List Nat)
    (m : TaskRequest) (hs : s.length < 2 ^ 32) (hm : m.taskId = []) :
    unmarshalTaskRequestLoop (appendString [] 1 s ++ rest) m =
      unmarshalTaskRequestLoop rest { m with taskId := s } := by
  by_cases h0 : s = []
  · subst h0
    obtain ⟨a, b, c, d⟩ := m
    simp only at hm
    subst hm
    rw [show appendString [] 1 [] = [] from rfl, List.nil_append]
  · rw [appendString, if_neg h0,
      unmarshalTaskRequestLoop_bytesField 1 s rest m (by omega) (by omega) (by omega)]
    norm_num

theorem unmarshalTaskRequestLoop_string2 (s : GoStr) (rest : List Nat)
    (m : TaskRequest) (hs : s.length < 2 ^ 32) (hm : m.skill = []) :
    unmarshalTaskRequestLoop (appendString [] 2 s ++ rest) m =
      unmarshalTaskRequestLoop rest { m with skill := s } := by
  by_cases h0 : s = []
  · subst h0
    obtain ⟨a, b, c, d⟩ := m
    simp only at hm
    subst hm
    rw [show appendString [] 2 [] = [] from rfl, List.nil_append]
  · rw [appendString, if_neg h0,
      unmarshalTaskRequestLoop_bytesField 2 s rest m (by omega) (by omega) (by omega)]
    norm_num

theorem unmarshalTaskRequestLoop_string3 (s : GoStr) (rest : List Nat)
    (m : TaskRequest) (hs : s.length < 2 ^ 32) (hm : m.input = []) :
    unmarshalTaskRequestLoop (appendString [] 3 s ++ rest) m =
      unmarshalTaskRequestLoop rest { m with input := s } := by
  by_cases h0 : s = []
  · subst h0
    obtain ⟨a, b, c, d⟩ := m
    simp only at hm
    subst hm
    rw [show appendString [] 3 [] = [] from rfl, List.nil_append]
  · rw [appendString, if_neg h0,
      unmarshalTaskRequestLoop_bytesField 3 s rest m (by omega) (by omega) (by omega)]
    norm_num

/-- Decoding a run of encoded metadata entries appends them to the message
metadata, provided their keys are fresh and mutually distinct. -/
theorem unmarshalTaskRequestLoop_meta (l : List (GoStr × GoStr)) :
    ∀ (rest : List Nat) (m : TaskRequest),
    (∀ p ∈ l, p.1.length < 2 ^ 32 ∧ p.2.length < 2 ^ 32) →
    (∀ p ∈ l, p.1 ∉ m.metadata.map Prod.fst) →
    (l.map Prod.fst).Nodup →
    unmarshalTaskRequestLoop
        ((l.map (fun p =>
          appendBytes [] 4 (appendString (appendString [] 1 p.1) 2 p.2))).flatten ++ rest) m =
      unmarshalTaskRequestLoop rest { m with metadata := m.metadata ++ l } := by
  induction l with
  | nil =>
    intro rest m _ _ _
    obtain ⟨a, b, c, d⟩ := m
    simp
  | cons p r ih =>
    intro rest m hb hfresh hnodup
    simp only [List.map_cons, List.flatten_cons, List.append_assoc]
    rw [unmarshalTaskRequestLoop_entry p.1 p.2 _ m (hb p (by simp)).1 (hb p (by simp)).2]
    rw [mapInsert_fresh m.metadata p.1 p.2 (hfresh p (by simp))]
    have hb' : ∀ q ∈ r, q.1.length < 2 ^ 32 ∧ q.2.length < 2 ^ 32 :=
      fun q hq => hb q (by simp [hq])
    have hnodup' : (r.map Prod.fst).Nodup := by
      simp only [List.map_cons, List.nodup_cons] at hnodup
      exact hnodup.2
    have hp1 : p.1 ∉ r.map Prod.fst := by
      simp only [List.map_cons, List.nodup_cons] at hnodup
      exact hnodup.1
    have hfresh' : ∀ q ∈ r,
        q.1 ∉ ({ m with metadata := m.metadata ++ [(p.1, p.2)] } : TaskRequest).metadata.map Prod.fst := by
      intro q hq
      simp only [List.map_append, List.mem_append, List.map_cons, List.map_nil,
        List.mem_singleton]
      push_neg
      refine ⟨fun hmem => hfresh q (by simp [hq]) hmem, ?_⟩
      intro hq1
      exact hp1 (hq1 ▸ List.mem_map_of_mem Prod.fst hq)
    rw [ih rest _ hb' hfresh' hnodup']
    simp

theorem unmarshalTaskEventLoop_string1 (s : GoStr) (rest : List Nat)
    (m : TaskEvent) (hs : s.length < 2 ^ 32) (hm : m.taskId = []) :
    unmarshalTaskEventLoop (appendString [] 1 s ++ rest) m =
      unmarshalTaskEventLoop rest { m with taskId := s } := by
  by_cases h0 : s = []
  · subst h0
    obtain ⟨a, b, c⟩ := m
    simp only at hm
    subst hm
    rw [show appendString [] 1 [] = [] from rfl, List.nil_append]
  · rw [appendString, if_neg h0,
      unmarshalTaskEventLoop_bytesField 1 s rest m (by omega) (by omega) (by omega)]
    norm_num

theorem unmarshalTaskEventLoop_string2 (s : GoStr) (rest : List Nat)
    (m : TaskEvent) (hs : s.length < 2 ^ 32) (hm : m.typ = []) :
    unmarshalTaskEventLoop (appendString [] 2 s ++ rest) m =
      unmarshalTaskEventLoop rest { m with typ := s } := by
  by_cases h0 : s = []
  · subst h0
    obtain ⟨a, b, c⟩ := m
    simp only at hm
    subst hm
    rw [show appendString [] 2 [] = [] from rfl, List.nil_append]
  · rw [appendString, if_neg h0,
      unmarshalTaskEventLoop_bytesField 2 s rest m (by omega) (by omega) (by omega)]
    norm_num

theorem unmarshalTaskEventLoop_string3 (s : GoStr) (rest : List Nat)
    (m : TaskEvent) (hs : s.length < 2 ^ 32) (hm : m.payload = []) :
    unmarshalTaskEventLoop (appendString [] 3 s ++ rest) m =
      unmarshalTaskEventLoop rest { m with payload := s } := by
  by_cases h0 : s = []
  · subst h0
    obtain ⟨a, b, c⟩ := m
    simp only at hm
    subst hm
    rw [show appendString [] 3 [] = [] from rfl, List.nil_append]
  · rw [appendString, if_neg h0,
      unmarshalTaskEventLoop_bytesField 3 s rest m (by omega) (by omega) (by omega)]
    norm_num

theorem unmarshalHealthResponseLoop_string1 (s : GoStr) (rest : List Nat)
    (m : HealthResponse) (hs : s.length < 2 ^ 32) (hm : m.status = []) :
    unmarshalHealthResponseLoop (appendString [] 1 s ++ rest) m =
      unmarshalHealthResponseLoop rest { m with status := s } := by
  by_cases h0 : s = []
  · subst h0
    obtain ⟨a, b⟩ := m
    simp only at hm
    subst hm
    rw [show appendString [] 1 [] = [] from rfl, List.nil_append]
  · rw [appendString, if_neg h0,
      unmarshalHealthResponseLoop_bytesField 1 s rest m (by omega) (by omega) (by omega)]
    norm_num

theorem unmarshalHealthResponseLoop_string2 (s : GoStr) (rest : List Nat)
    (m : HealthResponse) (hs : s.length < 2 ^ 32) (hm : m.agentName = []) :
    unmarshalHealthResponseLoop (appendString [] 2 s ++ rest) m =
      unmarshalHealthResponseLoop rest { m with agentName := s } := by
  by_cases h0 : s = []
  · subst h0
    obtain ⟨a, b⟩ := m
    simp only at hm
    subst hm
    rw [show appendString [] 2 [] = [] from rfl, List.nil_append]
  · rw [appendString, if_neg h0,
      unmarshalHealthResponseLoop_bytesField 2 s rest m (by omega) (by omega) (by omega)]
    norm_num

theorem marshalTaskRequest_eq (m : TaskRequest) :
    marshalTaskRequest m =
      appendString [] 1 m.taskId ++ (appendString [] 2 m.skill ++
        (appendString [] 3 m.input ++
          (m.metadata.map (fun p =>
            appendBytes [] 4 (appendString (appendString [] 1 p.1) 2 p.2))).flatten)) := by
  unfold marshalTaskRequest
  have hfold : ∀ (l : List (GoStr × GoStr)) (b : List Nat),
      l.foldl (fun b p =>
        appendBytes b 4 (appendString (appendString [] 1 p.1) 2 p.2)) b
        = b ++ (l.map fun p =>
            appendBytes [] 4 (appendString (appendString [] 1 p.1) 2 p.2)).flatten := by
    intro l
    induction l with
    | nil => intro b; simp
    | cons p r ih =>
      intro b
      simp only [List.foldl_cons, List.map_cons, List.flatten_cons]
      rw [ih, appendBytes_assoc]
      simp [List.append_assoc]
  rw [hfold]
  rw [appendString_assoc (appendString (appendString [] 1 m.taskId) 2 m.skill) 3,
    appendString_assoc (appendString [] 1 m.taskId) 2]
  simp [List.append_assoc]

theorem marshalTaskEvent_eq (m : TaskEvent) :
    marshalTaskEvent m =
      appendString [] 1 m.taskId ++ (appendString [] 2 m.typ ++
        appendString [] 3 m.payload) := by
  unfold marshalTaskEvent
  rw [appendString_assoc (appendString (appendString [] 1 m.taskId) 2 m.typ) 3,
    appendString_assoc (appendString [] 1 m.taskId) 2]
  simp [List.append_assoc]

theorem marshalHealthResponse_eq (m : HealthResponse) :
    marshalHealthResponse m =
      appendString [] 1 m.status ++ appendString [] 2 m.agentName := by
  unfold marshalHealthResponse
  rw [appendString_assoc (appendString [] 1 m.status) 2]

/-- Valid field values of a TaskRequest: string lengths within the wire
limits and metadata keys unique, as a Go map guarantees. -/
def ValidTaskRequest (m : TaskRequest) : Prop :=
  m.taskId.length < 2 ^ 32 ∧ m.skill.length < 2 ^ 32 ∧ m.input.length < 2 ^ 32 ∧
    (∀ p ∈ m.metadata, p.1.length < 2 ^ 32 ∧ p.2.length < 2 ^ 32) ∧
    (m.metadata.map Prod.fst).Nodup

instance (m : TaskRequest) : Decidable (ValidTaskRequest m) := by
  unfold ValidTaskRequest
  infer_instance

/-- Valid field values of a TaskEvent. -/
def ValidTaskEvent (m : TaskEvent) : Prop :=
  m.taskId.length < 2 ^ 32 ∧ m.typ.length < 2 ^ 32 ∧ m.payload.length < 2 ^ 32

instance (m : TaskEvent) : Decidable (ValidTaskEvent m) := by
  unfold ValidTaskEvent
  infer_instance

/-- Valid field values of a HealthResponse. -/
def ValidHealthResponse (m : HealthResponse) : Prop :=
  m.status.length < 2 ^ 32 ∧ m.agentName.length < 2 ^ 32

instance (m : HealthResponse) : Decidable (ValidHealthResponse m) := by
  unfold ValidHealthResponse
  infer_instance

theorem taskRequest_roundtrip (m : TaskRequest) (h : ValidTaskRequest m) :
    unmarshalTaskRequest (marshalTaskRequest m) = .ok m := by
  obtain ⟨h1, h2, h3, h4, h5⟩ := h
  obtain ⟨t, sk, inp, md⟩ := m
  unfold unmarshalTaskRequest
  rw [marshalTaskRequest_eq]
  simp only at h1 h2 h3 h4 h5 ⊢
  rw [unmarshalTaskRequestLoop_string1 t _ _ h1 rfl]
  rw [unmarshalTaskRequestLoop_string2 sk _ _ h2 rfl]
  rw [unmarshalTaskRequestLoop_string3 inp _ _ h3 rfl]
  have hmeta := unmarshalTaskRequestLoop_meta md [] ⟨t, sk, inp, []⟩ h4
    (by intro p hp; simp) h5
  rw [← List.append_nil ((md.map fun p =>
    appendBytes [] 4 (appendString (appendString [] 1 p.1) 2 p.2)).flatten)]
  rw [hmeta]
  rw [unmarshalTaskRequestLoop]
  simp

theorem taskEvent_roundtrip (m : TaskEvent) (h : ValidTaskEvent m) :
    unmarshalTaskEvent (marshalTaskEvent m) = .ok m := by
  obtain ⟨h1, h2, h3⟩ := h
  obtain ⟨t, ty, pl⟩ := m
  unfold unmarshalTaskEvent
  rw [marshalTaskEvent_eq]
  simp only at h1 h2 h3 ⊢
  rw [unmarshalTaskEventLoop_string1 t _ _ h1 rfl]
  rw [unmarshalTaskEventLoop_string2 ty _ _ h2 rfl]
  rw [← List.append_nil (appendString [] 3 pl)]
  rw [unmarshalTaskEventLoop_string3 pl _ _ h3 rfl]
  rw [unmarshalTaskEventLoop]
  simp

theorem healthResponse_roundtrip (m : HealthResponse) (h : ValidHealthResponse m) :
    unmarshalHealthResponse (marshalHealthResponse m) = .ok m := by
  obtain ⟨h1, h2⟩ := h
  obtain ⟨st, an⟩ := m
  unfold unmarshalHealthResponse
  rw [marshalHealthResponse_eq]
  simp only at h1 h2 ⊢
  rw [unmarshalHealthResponseLoop_string1 st _ _ h1 rfl]
  rw [← List.append_nil (appendString [] 2 an)]
  rw [unmarshalHealthResponseLoop_string2 an _ _ h2 rfl]
  rw [unmarshalHealthResponseLoop]
  simp

end Pb

/-- C3: for every TaskRequest, TaskEvent and HealthResponse with valid field
values, decoding the encoding yields the original message; empty string
fields (omitted on the wire) re-materialize as empty strings, and every
metadata entry of a TaskRequest is recovered with its key and value. -/
theorem c3_codec_roundtrip :
    (∀ m : Pb.TaskRequest, Pb.ValidTaskRequest m →
      Pb.unmarshalTaskRequest (Pb.marshalTaskRequest m) = .ok m) ∧
    (∀ m : Pb.TaskEvent, Pb.ValidTaskEvent m →
      Pb.unmarshalTaskEvent (Pb.marshalTaskEvent m) = .ok m) ∧
    (∀ m : Pb.HealthResponse, Pb.ValidHealthResponse m →
      Pb.unmarshalHealthResponse (Pb.marshalHealthResponse m) = .ok m) :=
  ⟨Pb.taskRequest_roundtrip, Pb.taskEvent_roundtrip, Pb.healthResponse_roundtrip⟩

/-- Witness for C3 at a concrete message with an empty input field and two
metadata entries. -/
theorem c3_codec_roundtrip_witness :
    Pb.ValidTaskRequest ⟨[116, 49], [115], [], [([97], [49]), ([98], [50])]⟩ ∧
    Pb.unmarshalTaskRequest (Pb.marshalTaskRequest
        ⟨[116, 49], [115], [], [([97], [49]), ([98], [50])]⟩) =
      .ok ⟨[116, 49], [115], [], [([97], [49]), ([98], [50])]⟩ :=
  ⟨by decide, c3_codec_roundtrip.1 _ (by decide)⟩

/-- C4: decoding each message shape is total over arbitrary byte sequences —
the Lean embedding is a total function returning ok or a decode error — and
unknown field numbers as well as non-bytes wire types are skipped by
consuming their encoded extent. -/
theorem c4_decode_total :
    (∀ data : List Nat,
      (∃ m, Pb.unmarshalTaskRequest data = .ok m) ∨
      (∃ e, Pb.unmarshalTaskRequest data = .error e)) ∧
    (∀ data : List Nat,
      (∃ m, Pb.unmarshalTaskEvent data = .ok m) ∨
      (∃ e, Pb.unmarshalTaskEvent data = .error e)) ∧
    (∀ data : List Nat,
      (∃ m, Pb.unmarshalHealthResponse data = .ok m) ∨
      (∃ e, Pb.unmarshalHealthResponse data = .error e)) ∧
    (∀ (num : Nat) (s rest : List Nat) (m : Pb.TaskRequest),
      5 ≤ num → num < 2 ^ 31 → s.length < 2 ^ 64 →
      Pb.unmarshalTaskRequestLoop (Pb.appendBytes [] num s ++ rest) m =
        Pb.unmarshalTaskRequestLoop rest m) ∧
    (∀ (num v : Nat) (rest : List Nat) (m : Pb.TaskRequest),
      1 ≤ num → num < 2 ^ 31 → v < 2 ^ 64 →
      Pb.unmarshalTaskRequestLoop
          (Pb.putVarint (num * 8) ++ (Pb.putVarint v ++ rest)) m =
        Pb.unmarshalTaskRequestLoop rest m) := by
  refine ⟨?_, ?_, ?_, ?_, ?_⟩
  · intro data
    cases h : Pb.unmarshalTaskRequest data with
    | ok m => exact Or.inl ⟨m, rfl⟩
    | error e => exact Or.inr ⟨e, rfl⟩
  · intro data
    cases h : Pb.unmarshalTaskEvent data with
    | ok m => exact Or.inl ⟨m, rfl⟩
    | error e => exact Or.inr ⟨e, rfl⟩
  · intro data
    cases h : Pb.unmarshalHealthResponse data with
    | ok m => exact Or.inl ⟨m, rfl⟩
    | error e => exact Or.inr ⟨e, rfl⟩
  · intro num s rest m h5 h2 hs
    rw [Pb.unmarshalTaskRequestLoop_bytesField num s rest m (by omega) h2 hs,
      if_neg (by omega), if_neg (by omega), if_neg (by omega), if_neg (by omega)]
  · intro num v rest m h1 h2 hv
    exact Pb.unmarshalTaskRequestLoop_varintField num v rest m h1 h2 hv

/-- Witness for C4: an unknown bytes field 9 and an unknown varint field 6
are skipped, leaving decoding of the remaining bytes unchanged. -/
theorem c4_decode_total_witness :
    (5 : Nat) ≤ 9 ∧ (9 : Nat) < 2 ^ 31 ∧ ([7] : List Nat).length < 2 ^ 64 ∧
    Pb.unmarshalTaskRequestLoop (Pb.appendBytes [] 9 [7] ++ [10, 1, 97])
        ⟨[], [], [], []⟩ =
      Pb.unmarshalTaskRequestLoop [10, 1, 97] ⟨[], [], [], []⟩ ∧
    Pb.unmarshalTaskRequestLoop
        (Pb.putVarint (6 * 8) ++ (Pb.putVarint 300 ++ [10, 1, 97]))
        ⟨[], [], [], []⟩ =
      Pb.unmarshalTaskRequestLoop [10, 1, 97] ⟨[], [], [], []⟩ :=
  ⟨by decide, by decide, by decide,
    c4_decode_total.2.2.2.1 9 [7] [10, 1, 97] _ (by decide) (by decide) (by decide),
    c4_decode_total.2.2.2.2 6 300 [10, 1, 97] _ (by decide) (by decide) (by decide)⟩

namespace AgentM

/-- internal/agent/manifest.go Manifest. -/
structure Manifest where
  name : String
  description : String
  skills : List String
  command : String
  args : List String
  dir : String
deriving DecidableEq

/-- manifest.go Manifest.Validate: checks name, at least one skill, and
command, in that order. -/
def Manifest.Validate (m : Manifest) : Except String Unit :=
  if m.name = "" then .error "name is required"
  else if m.skills = [] then .error "at least one skill is required"
  else if m.command = "" then .error "command is required"
  else .ok ()

/-- The distinct failure causes of LoadManifest. -/
inductive ManifestErrKind
  | readErr
  | parseErr
  | validationErr
deriving DecidableEq

/-- manifest.go LoadManifest with the OS file read and the JSON decode
abstracted as inputs: readRes is the outcome of os.ReadFile on the path and
parse is the outcome of json.Unmarshal on the bytes read.  Each failure
cause is wrapped with its own message prefix, giving a distinct error kind
per cause. -/
def LoadManifest (readRes : Except String GoStr)
    (parse : GoStr → Except String Manifest) :
    Except (ManifestErrKind × String) Manifest :=
  match readRes with
  | .error e => .error (.readErr, "read manifest: " ++ e)
  | .ok data =>
    match parse data with
    | .error e => .error (.parseErr, "parse manifest: " ++ e)
    | .ok m =>
      match m.Validate with
      | .error e => .error (.validationErr, "invalid manifest: " ++ e)
      | .ok _ => .ok m

/-- internal/agent/registry.go Registry: ordered accepted manifests and the
skill-to-agent-name map (a Go map embedded as an association list). -/
structure Registry where
  agents : List Manifest
  skillMap : List (String × String)
deriving DecidableEq

/-- Go map lookup on the association-list embedding. -/
def lookupSkill : List (String × String) → String → Option String
  | [], _ => none
  | (k, v) :: rest, s => if k = s then some v else lookupSkill rest s

/-- registry.go NewRegistry inner loop: for each skill of an accepted
manifest, if the skill is already mapped keep the existing entry (the
conflict is only logged), otherwise insert skill to name. -/
def registerSkills : List (String × String) → String → List String →
    List (String × String)
  | m, _, [] => m
  | m, name, skill :: rest =>
    if (lookupSkill m skill).isSome then registerSkills m name rest
    else registerSkills (m ++ [(skill, name)]) name rest

/-- registry.go NewRegistry outer loop over the manifests accepted in
directory-scan order (subdirectories without a manifest or whose manifest
fails to load are already skipped): register the skills, then append the
manifest to the ordered agent list. -/
def registerAll : Registry → List Manifest → Registry
  | r, [] => r
  | r, m :: rest =>
    registerAll ⟨r.agents ++ [m], registerSkills r.skillMap m.name m.skills⟩ rest

/-- registry.go NewRegistry on the accepted-manifest sequence. -/
def NewRegistry (ms : List Manifest) : Registry :=
  registerAll ⟨[], []⟩ ms

/-- Spec-side definition (section 4.2 and I4): the agent owning a skill is
the first manifest in scan order that declares it. -/
def firstDeclarant : List Manifest → String → Option String
  | [], _ => none
  | m :: rest, s => if s ∈ m.skills then some m.name else firstDeclarant rest s

theorem lookupSkill_append (m : List (String × String)) (k v : String)
    (s : String) :
    lookupSkill (m ++ [(k, v)]) s =
      ((lookupSkill m s).orElse (fun _ => if k = s then some v else none)) := by
  induction m with
  | nil => simp [lookupSkill]
  | cons p rest ih =>
    obtain ⟨k0, v0⟩ := p
    by_cases h : k0 = s
    · simp [lookupSkill, h]
    · simp only [List.cons_append, lookupSkill, if_neg h]
      exact ih

theorem registerSkills_lookup (skills : List String) :
    ∀ (m : List (String × String)) (name s : String),
    lookupSkill (registerSkills m name skills) s =
      ((lookupSkill m s).orElse
        (fun _ => if s ∈ skills then some name else none)) := by
  induction skills with
  | nil =>
    intro m name s
    simp only [registerSkills]
    cases lookupSkill m s <;> simp [Option.orElse]
  | cons sk rest ih =>
    intro m name s
    rw [registerSkills]
    by_cases hin : (lookupSkill m sk).isSome
    · rw [if_pos hin, ih]
      by_cases hs : s = sk
      · subst hs
        obtain ⟨v, hv⟩ := Option.isSome_iff_exists.mp hin
        simp [hv, Option.orElse]
      · simp only [List.mem_cons, hs, false_or]
    · rw [if_neg hin, ih, lookupSkill_append]
      have hnone : lookupSkill m sk = none := Option.not_isSome_iff_eq_none.mp hin
      by_cases hs : s = sk
      · subst hs
        simp [hnone, Option.orElse, List.mem_cons]
      · have hks : ¬(sk = s) := fun h => hs h.symm
        cases h : lookupSkill m s <;>
          simp [Option.orElse, hks, List.mem_cons, hs]

theorem registerAll_spec (ms : List Manifest) :
    ∀ r : Registry,
    (registerAll r ms).agents = r.agents ++ ms ∧
    ∀ s, lookupSkill (registerAll r ms).skillMap s =
      ((lookupSkill r.skillMap s).orElse (fun _ => firstDeclarant ms s)) := by
  induction ms with
  | nil =>
    intro r
    refine ⟨by simp [registerAll], fun s => ?_⟩
    simp only [registerAll, firstDeclarant]
    cases lookupSkill r.skillMap s <;> simp [Option.orElse]
  | cons m rest ih =>
    intro r
    rw [registerAll]
    obtain ⟨ihA, ihL⟩ := ih ⟨r.agents ++ [m], registerSkills r.skillMap m.name m.skills⟩
    refine ⟨by rw [ihA]; simp, fun s => ?_⟩
    rw [ihL s]
    simp only [registerSkills_lookup]
    rw [firstDeclarant]
    by_cases hs : s ∈ m.skills
    · cases h : lookupSkill r.skillMap s <;> simp [Option.orElse, hs]
    · cases h : lookupSkill r.skillMap s <;> simp [Option.orElse, hs]

end AgentM

/-- C5: over any sequence of manifests accepted in directory-scan order,
every skill label resolves to the first declaring manifest in scan order
(conflicting later declarations are skipped for that skill only), and every
accepted manifest, conflict loser or not, is appended to the ordered agent
list. -/
theorem c5_registry_firstDeclarantWins (ms : List AgentM.Manifest) :
    (AgentM.NewRegistry ms).agents = ms ∧
    ∀ s, AgentM.lookupSkill (AgentM.NewRegistry ms).skillMap s =
      AgentM.firstDeclarant ms s := by
  unfold AgentM.NewRegistry
  obtain ⟨hA, hL⟩ := AgentM.registerAll_spec ms ⟨[], []⟩
  refine ⟨by simpa using hA, fun s => ?_⟩
  rw [hL s]
  simp [AgentM.lookupSkill, Option.orElse]

instance {e a : Type} [DecidableEq e] [DecidableEq a] : DecidableEq (Except e a) := fun x y =>
  match x, y with
  | .error u, .error v =>
    if h : u = v then isTrue (by rw [h])
    else isFalse (by intro hc; injection hc; contradiction)
  | .error _, .ok _ => isFalse (fun hc => Except.noConfusion hc)
  | .ok _, .error _ => isFalse (fun hc => Except.noConfusion hc)
  | .ok u, .ok v =>
    if h : u = v then isTrue (by rw [h])
    else isFalse (by intro hc; injection hc; contradiction)

/-- C8 counterexample: a manifest whose dir field is missing (the Go JSON
decoder leaves it as the empty string) passes validation, although the
claim says validation rejects any manifest missing dir. -/
theorem c8_counterexample_dir_not_validated :
    (AgentM.Manifest.mk "a" "" ["s"] "c" [] "").dir = "" ∧
    (AgentM.Manifest.mk "a" "" ["s"] "c" [] "").Validate = .ok () := by
  exact ⟨rfl, by decide⟩

/-- C8 (amended): LoadManifest fails with a distinct error kind per cause
(read, parse, validation), and validation rejects exactly the manifests
missing name, skills (at least one entry) or command; dir is not
validated. -/
theorem c8_load_manifest_error_kinds :
    (∀ (e : String) (parse : GoStr → Except String AgentM.Manifest),
      AgentM.LoadManifest (.error e) parse =
        .error (.readErr, "read manifest: " ++ e)) ∧
    (∀ (data : GoStr) (parse : GoStr → Except String AgentM.Manifest) (e : String),
      parse data = .error e →
      AgentM.LoadManifest (.ok data) parse =
        .error (.parseErr, "parse manifest: " ++ e)) ∧
    (∀ (data : GoStr) (parse : GoStr → Except String AgentM.Manifest)
        (m : AgentM.Manifest) (e : String),
      parse data = .ok m → m.Validate = .error e →
      AgentM.LoadManifest (.ok data) parse =
        .error (.validationErr, "invalid manifest: " ++ e)) ∧
    (∀ (data : GoStr) (parse : GoStr → Except String AgentM.Manifest)
        (m : AgentM.Manifest),
      parse data = .ok m → m.Validate = .ok () →
      AgentM.LoadManifest (.ok data) parse = .ok m) ∧
    (∀ m : AgentM.Manifest,
      (∃ e, m.Validate = .error e) ↔
        (m.name = "" ∨ m.skills = [] ∨ m.command = "")) := by
  refine ⟨fun e parse => rfl, ?_, ?_, ?_, ?_⟩
  · intro data parse e hp
    simp [AgentM.LoadManifest, hp]
  · intro data parse m e hp hv
    simp [AgentM.LoadManifest, hp, hv]
  · intro data parse m hp hv
    simp [AgentM.LoadManifest, hp, hv]
  · intro m
    unfold AgentM.Manifest.Validate
    by_cases h1 : m.name = "" <;> by_cases h2 : m.skills = [] <;>
      by_cases h3 : m.command = "" <;> simp [h1, h2, h3]

/-- Witness for C8 at a concrete parse failure and a concrete validation
success. -/
theorem c8_load_manifest_error_kinds_witness :
    ((fun _ : GoStr => (Except.error "bad" : Except String AgentM.Manifest)) [] =
      .error "bad") ∧
    AgentM.LoadManifest (.ok []) (fun _ => .error "bad") =
      .error (.parseErr, "parse manifest: bad") ∧
    AgentM.LoadManifest (.ok [])
        (fun _ => .ok (AgentM.Manifest.mk "a" "" ["s"] "c" [] "d")) =
      .ok (AgentM.Manifest.mk "a" "" ["s"] "c" [] "d") :=
  ⟨rfl, c8_load_manifest_error_kinds.2.1 [] _ "bad" rfl,
    c8_load_manifest_error_kinds.2.2.2.1 [] _ _ rfl (by decide)⟩

namespace RunnerM

/-- Leading decimal digits of a character list. -/
def leadingDigits (cs : List Char) : List Char :=
  cs.takeWhile Char.isDigit

/-- Value of a digit string. -/
def digitsToNat (ds : List Char) : Nat :=
  ds.foldl (fun a c => a * 10 + (c.toNat - 48)) 0

/-- The white space characters the fmt scanner skips before a verb (the
space table of fmt, code points 09, 0B-0D, 20, 85, A0, 1680, 2000-200A,
2028, 2029, 202F, 205F, 3000).  A newline is deliberately not in this set:
in Sscanf a newline is an error, and since the digit check below then fails,
the line is rejected either way, matching the code; the scanned lines come
from a line scanner and carry no newline anyway. -/
def isFmtSpace (c : Char) : Bool :=
  let n := c.toNat
  n = 0x09 || n = 0x0B || n = 0x0C || n = 0x0D || n = 0x20 || n = 0x85 ||
    n = 0xA0 || n = 0x1680 || (0x2000 ≤ n && n ≤ 0x200A) || n = 0x2028 ||
    n = 0x2029 || n = 0x202F || n = 0x205F || n = 0x3000

/-- fmt.Sscanf verb d with an int argument applied to the remainder of the
handshake line: skip leading white space (fmt space set), accept an optional
sign, then require at least one decimal digit; the numeral must fit the
64-bit int the code scans into (strconv range error otherwise, which makes
Sscanf fail and the line get skipped); trailing characters are ignored
because the format string is exhausted after the verb. -/
def scanDecimal (cs : List Char) : Option Int :=
  let cs2 := cs.dropWhile isFmtSpace
  match cs2 with
  | '-' :: rest =>
    let ds := leadingDigits rest
    if ds = [] then none
    else if (digitsToNat ds : Int) ≤ 2 ^ 63 then some (-(digitsToNat ds : Int))
    else none
  | '+' :: rest =>
    let ds := leadingDigits rest
    if ds = [] then none
    else if (digitsToNat ds : Int) ≤ 2 ^ 63 - 1 then some ((digitsToNat ds : Int))
    else none
  | _ =>
    let ds := leadingDigits cs2
    if ds = [] then none
    else if (digitsToNat ds : Int) ≤ 2 ^ 63 - 1 then some ((digitsToNat ds : Int))
    else none

/-- runner.go Start stdout scanner applied to one line: the line must start
with AGENT_PORT= (strings.HasPrefix) and the remainder must scan under
Sscanf with format AGENT_PORT=%d; otherwise the line is skipped. -/
def lineToPort (line : List Char) : Option Int :=
  if ("AGENT_PORT=".toList).isPrefixOf line then scanDecimal (line.drop 11)
  else none

/-- The scanner goroutine: port of the first accepted line, if any. -/
def findPort : List (List Char) → Option Int
  | [] => none
  | l :: rest =>
    match lineToPort l with
    | some p => some p
    | none => findPort rest

/-- Spec-side definition, following the specification words only: a line
matches AGENT_PORT=(decimal) exactly when the remainder after the prefix is
a non-empty all-digit string. -/
def specStrictPort (line : List Char) : Option Int :=
  if ("AGENT_PORT=".toList).isPrefixOf line ∧ line.drop 11 ≠ [] ∧
      (line.drop 11).all Char.isDigit then
    some ((digitsToNat (line.drop 11) : Int))
  else none

/-- Outcome of the select in runner.go Start, given the stdout lines the
child produced before the 15-second deadline and whether stdout closed
before the deadline: a scanned port wins, otherwise a closed stdout yields
the premature-exit error, otherwise the timeout fires. -/
def handshakeOutcome (lines : List (List Char)) (closed : Bool) :
    Except String Int :=
  match findPort lines with
  | some p => .ok p
  | none =>
    if closed then .error "agent exited without printing AGENT_PORT"
    else .error "timeout waiting for AGENT_PORT"

/-- runner.go State constants. -/
inductive RState
  | stopped
  | starting
  | running
  | failed
deriving DecidableEq

/-- The String value of a runner state constant. -/
def stateStr : RState → String
  | .stopped => "stopped"
  | .starting => "starting"
  | .running => "running"
  | .failed => "failed"

/-- The mutex-protected mutable fields of a Runner: state, port, whether the
client is non-nil, and the error. -/
structure Runner where
  state : RState
  port : Int
  client : Bool
  err : Option String
deriving DecidableEq

/-- The atomic (lock-held) sections of runner.go that write runner fields.
Long-running work (spawn, stdout scan, dial, RPC, waiting on the process)
happens between these sections, so an execution of the runner is a sequence
of these operations. -/
inductive ROp
  | startBegin
  | setFailed (e : String)
  | handshakeOk (p : Int)
  | connectOk
  | stop
  | monitorExit (procErr : Option String)
deriving DecidableEq

/-- The message monitor builds from the process exit error (runner.go
lines 262-267). -/
def monitorMsg : Option String → String
  | some m => "process exited unexpectedly: " ++ m
  | none => "process exited unexpectedly with code 0"

/-- Effect of each atomic section, translated from runner.go:
startBegin (Start lines 54-62) is a no-op when already Running or Starting,
otherwise enters Starting and clears the error; setFailed (lines 239-245,
also reached from the health loop) unconditionally writes Failed and the
error; handshakeOk (lines 114-116) stores the scanned port; connectOk
(lines 136-139) stores the client and writes Running; stop (lines 147-155)
writes Stopped and clears the client; monitorExit (lines 248-270) writes
Failed with the process-exit error only if the state is still Running. -/
def Runner.applyOp (r : Runner) : ROp → Runner
  | .startBegin =>
    if r.state = .running ∨ r.state = .starting then r
    else { r with state := .starting, err := none }
  | .setFailed e => { r with state := .failed, err := some e }
  | .handshakeOk p => { r with port := p }
  | .connectOk => { r with client := true, state := .running }
  | .stop => { r with state := .stopped, client := false }
  | .monitorExit pe =>
    if r.state = .running then
      { r with state := .failed, err := some (monitorMsg pe) }
    else r

/-- NewRunner: initial state Stopped, no port, no client, no error. -/
def initRunner : Runner :=
  ⟨.stopped, 0, false, none⟩

/-- The runner after a sequence of atomic sections. -/
def run (ops : List ROp) : Runner :=
  ops.foldl Runner.applyOp initRunner

/-- Control-flow constraint of Start: the connect section only runs after
the select received a port from the scanner, so every connectOk is preceded
by some handshakeOk. -/
def wfAux : Bool → List ROp → Bool
  | _, [] => true
  | seen, op :: rest =>
    match op with
    | .handshakeOk _ => wfAux true rest
    | .connectOk => seen && wfAux seen rest
    | _ => wfAux seen rest

/-- A trace is well formed when every connectOk has an earlier handshakeOk. -/
def wfTrace (ops : List ROp) : Bool :=
  wfAux false ops

/-- runner.go AgentStatus. -/
structure AgentStatus where
  name : String
  state : String
  skills : List String
  port : Int
  error : String
deriving DecidableEq

/-- runner.go Status: snapshot projection under the read lock; the error
field is the error message when set and empty otherwise. -/
def Runner.Status (r : Runner) (name : String) (skills : List String) :
    AgentStatus :=
  let emsg : String :=
    match r.err with
    | some e => e
    | none => ""
  ⟨name, stateStr r.state, skills, r.port, emsg⟩

/-- One RecvMsg outcome on the Execute stream. -/
inductive RecvOutcome
  | event (e : Pb.TaskEvent)
  | eof
  | err (s : String)
deriving DecidableEq

/-- client.go ExecuteStream.RecvAll: accumulate events until io.EOF yields
the events with no error; any other receive error yields the events
received so far together with that error. -/
def RecvAll : List RecvOutcome → List Pb.TaskEvent × Option String
  | [] => ([], none)
  | .eof :: _ => ([], none)
  | .err s :: _ => ([], some s)
  | .event e :: rest =>
    let p := RecvAll rest
    (e :: p.1, p.2)

/-- runner.go Execute: read client and state under the read lock; when not
Running or the client is nil, fail with the not-running error and touch
nothing; otherwise the result is whatever RecvAll returns on the stream
(openErr stands for a failure to open the stream, wrapped like the code
does).  The returned runner is the post-state: Execute never writes. -/
def Runner.Execute (r : Runner) (name : String) (openErr : Option String)
    (stream : List RecvOutcome) :
    Runner × (List Pb.TaskEvent × Option String) :=
  if r.state ≠ .running ∨ r.client = false then
    (r, ([], some ("agent " ++ name ++ " is not running (state: "
      ++ stateStr r.state ++ ")")))
  else
    match openErr with
    | some e => (r, ([], some ("execute on " ++ name ++ ": " ++ e)))
    | none => (r, RecvAll stream)

/-- runner.go Health: same guard as Execute; resp is the reply of the
underlying unary RPC. -/
def Runner.Health (r : Runner) (name : String)
    (resp : Except String Pb.HealthResponse) :
    Runner × Except String Pb.HealthResponse :=
  if r.state ≠ .running ∨ r.client = false then
    (r, .error ("agent " ++ name ++ " is not running"))
  else (r, resp)

/-- Failure messages recorded by the failure-writing operations of a trace. -/
def failMsgs (ops : List ROp) : List String :=
  ops.filterMap fun op =>
    match op with
    | .setFailed e => some e
    | .monitorExit pe => some (monitorMsg pe)
    | _ => none

end RunnerM

namespace RunnerM

theorem applyOp_setFailed (s : Runner) (e : String) :
    s.applyOp (.setFailed e) = { s with state := .failed, err := some e } := rfl

theorem applyOp_handshakeOk (s : Runner) (p : Int) :
    s.applyOp (.handshakeOk p) = { s with port := p } := rfl

theorem applyOp_connectOk (s : Runner) :
    s.applyOp .connectOk = { s with client := true, state := .running } := rfl

theorem applyOp_stop (s : Runner) :
    s.applyOp .stop = { s with state := .stopped, client := false } := rfl

theorem applyOp_startBegin_eq (s : Runner) :
    s.applyOp .startBegin =
      if s.state = .running ∨ s.state = .starting then s
      else { s with state := .starting, err := none } := rfl

theorem applyOp_monitorExit_eq (s : Runner) (pe : Option String) :
    s.applyOp (.monitorExit pe) =
      if s.state = .running then
        { s with state := .failed, err := some (monitorMsg pe) }
      else s := rfl

theorem applyOp_startBegin_port (s : Runner) :
    (s.applyOp .startBegin).port = s.port := by
  by_cases hc : s.state = .running ∨ s.state = .starting <;>
    simp [Runner.applyOp, hc]

theorem applyOp_monitorExit_port (s : Runner) (pe : Option String) :
    (s.applyOp (.monitorExit pe)).port = s.port := by
  by_cases hc : s.state = .running <;> simp [Runner.applyOp, hc]

/-- Only handshakeOk writes the port. -/
theorem foldl_port (ops : List ROp) : ∀ s : Runner,
    (ops.foldl Runner.applyOp s).port = s.port ∨
    ∃ p, ROp.handshakeOk p ∈ ops ∧ (ops.foldl Runner.applyOp s).port = p := by
  induction ops with
  | nil => intro s; exact Or.inl rfl
  | cons op rest ih =>
    intro s
    rw [List.foldl_cons]
    rcases ih (s.applyOp op) with h | ⟨p, hp, h⟩
    · cases op with
      | handshakeOk p =>
        right
        exact ⟨p, by simp, by rw [h, applyOp_handshakeOk]⟩
      | startBegin => left; rw [h, applyOp_startBegin_port]
      | setFailed e => left; rw [h, applyOp_setFailed]
      | connectOk => left; rw [h, applyOp_connectOk]
      | stop => left; rw [h, applyOp_stop]
      | monitorExit pe => left; rw [h, applyOp_monitorExit_port]
    · right
      exact ⟨p, by simp [hp], h⟩

theorem failMsgs_cons_sub (op : ROp) (rest : List ROp) (e : String)
    (h : e ∈ failMsgs rest) : e ∈ failMsgs (op :: rest) := by
  unfold failMsgs at *
  rw [List.filterMap_cons]
  cases op
  case setFailed e0 => exact List.mem_cons_of_mem _ h
  case monitorExit pe => exact List.mem_cons_of_mem _ h
  all_goals exact h

/-- Every recorded error message originates from a failure-writing
operation of the trace. -/
theorem foldl_err (ops : List ROp) : ∀ (s : Runner) (e : String),
    (ops.foldl Runner.applyOp s).err = some e →
    e ∈ failMsgs ops ∨ s.err = some e := by
  induction ops with
  | nil => intro s e h; exact Or.inr h
  | cons op rest ih =>
    intro s e h
    rw [List.foldl_cons] at h
    rcases ih _ e h with h1 | h1
    · exact Or.inl (failMsgs_cons_sub op rest e h1)
    · cases op with
      | startBegin =>
        rw [applyOp_startBegin_eq] at h1
        by_cases hc : s.state = .running ∨ s.state = .starting
        · rw [if_pos hc] at h1
          exact Or.inr h1
        · rw [if_neg hc] at h1
          simp at h1
      | setFailed e0 =>
        rw [applyOp_setFailed] at h1
        simp only [Option.some.injEq] at h1
        left
        unfold failMsgs
        rw [List.filterMap_cons]
        simp [h1]
      | handshakeOk p => exact Or.inr h1
      | connectOk => exact Or.inr h1
      | stop => exact Or.inr h1
      | monitorExit pe =>
        rw [applyOp_monitorExit_eq] at h1
        by_cases hc : s.state = .running
        · rw [if_pos hc] at h1
          simp only [Option.some.injEq] at h1
          left
          unfold failMsgs
          rw [List.filterMap_cons]
          simp [h1]
        · rw [if_neg hc] at h1
          exact Or.inr h1

/-- Invariant carrier for the Running-state claim: under the control-flow
constraint and with only non-zero handshake ports, a Running runner has a
client and a non-zero port. -/
theorem running_aux (ops : List ROp) : ∀ (seen : Bool) (s : Runner),
    wfAux seen ops = true →
    (∀ p, ROp.handshakeOk p ∈ ops → p ≠ 0) →
    (seen = true → s.port ≠ 0) →
    (s.state = .running → s.client = true ∧ s.port ≠ 0) →
    ((ops.foldl Runner.applyOp s).state = .running →
      (ops.foldl Runner.applyOp s).client = true ∧
      (ops.foldl Runner.applyOp s).port ≠ 0) := by
  induction ops with
  | nil =>
    intro seen s _ _ _ hinv
    simpa using hinv
  | cons op rest ih =>
    intro seen s hwf hnz hseen hinv
    rw [List.foldl_cons]
    cases op with
    | handshakeOk p =>
      have hp : p ≠ 0 := hnz p (by simp)
      simp only [wfAux] at hwf
      refine ih true _ hwf (fun q hq => hnz q (by simp [hq])) (fun _ => ?_) ?_
      · rw [applyOp_handshakeOk]
        exact hp
      · rw [applyOp_handshakeOk]
        intro hr
        obtain ⟨hc, _⟩ := hinv hr
        exact ⟨hc, hp⟩
    | connectOk =>
      simp only [wfAux, Bool.and_eq_true] at hwf
      obtain ⟨hseen1, hwf⟩ := hwf
      refine ih seen _ hwf (fun q hq => hnz q (by simp [hq]))
        (fun h => ?_) (fun _ => ?_)
      · rw [applyOp_connectOk]
        exact hseen h
      · rw [applyOp_connectOk]
        exact ⟨rfl, hseen hseen1⟩
    | startBegin =>
      simp only [wfAux] at hwf
      refine ih seen _ hwf (fun q hq => hnz q (by simp [hq]))
        (fun h => ?_) (fun h => ?_)
      · rw [applyOp_startBegin_port]
        exact hseen h
      · rw [applyOp_startBegin_eq] at h ⊢
        by_cases hc : s.state = .running ∨ s.state = .starting
        · rw [if_pos hc] at h ⊢
          exact hinv h
        · rw [if_neg hc] at h
          simp at h
    | setFailed e =>
      simp only [wfAux] at hwf
      refine ih seen _ hwf (fun q hq => hnz q (by simp [hq]))
        (fun h => ?_) (fun h => ?_)
      · rw [applyOp_setFailed]
        exact hseen h
      · rw [applyOp_setFailed] at h
        simp at h
    | stop =>
      simp only [wfAux] at hwf
      refine ih seen _ hwf (fun q hq => hnz q (by simp [hq]))
        (fun h => ?_) (fun h => ?_)
      · rw [applyOp_stop]
        exact hseen h
      · rw [applyOp_stop] at h
        simp at h
    | monitorExit pe =>
      simp only [wfAux] at hwf
      refine ih seen _ hwf (fun q hq => hnz q (by simp [hq]))
        (fun h => ?_) (fun h => ?_)
      · rw [applyOp_monitorExit_port]
        exact hseen h
      · rw [applyOp_monitorExit_eq] at h ⊢
        by_cases hc : s.state = .running
        · rw [if_pos hc] at h
          simp at h
        · rw [if_neg hc] at h ⊢
          exact hinv h

/-- Running always implies a stored client, on every trace: only connectOk
enters Running and it stores the client; only stop clears the client and it
leaves Running at the same time. -/
theorem client_aux (ops : List ROp) : ∀ s : Runner,
    (s.state = .running → s.client = true) →
    ((ops.foldl Runner.applyOp s).state = .running →
      (ops.foldl Runner.applyOp s).client = true) := by
  induction ops with
  | nil =>
    intro s h
    simpa using h
  | cons op rest ih =>
    intro s h
    rw [List.foldl_cons]
    refine ih _ ?_
    cases op with
    | startBegin =>
      rw [applyOp_startBegin_eq]
      by_cases hc : s.state = .running ∨ s.state = .starting
      · rw [if_pos hc]
        exact h
      · rw [if_neg hc]
        intro h2
        simp at h2
    | setFailed e =>
      rw [applyOp_setFailed]
      intro h2
      simp at h2
    | handshakeOk p =>
      rw [applyOp_handshakeOk]
      exact h
    | connectOk =>
      rw [applyOp_connectOk]
      intro _
      rfl
    | stop =>
      rw [applyOp_stop]
      intro h2
      simp at h2
    | monitorExit pe =>
      rw [applyOp_monitorExit_eq]
      by_cases hc : s.state = .running
      · rw [if_pos hc]
        intro h2
        simp at h2
      · rw [if_neg hc]
        exact h

end RunnerM

namespace RunnerM

/-- The scanner resolves to p exactly when some line parses to p and all
earlier lines are skipped. -/
theorem findPort_cons_some (l : List Char) (rest : List (List Char)) (q : Int)
    (hl : lineToPort l = some q) : findPort (l :: rest) = some q := by
  rw [findPort, hl]

theorem findPort_cons_none (l : List Char) (rest : List (List Char))
    (hl : lineToPort l = none) : findPort (l :: rest) = findPort rest := by
  rw [findPort, hl]

theorem findPort_some_iff (lines : List (List Char)) (p : Int) :
    findPort lines = some p ↔
      ∃ l1 ln l2, lines = l1 ++ ln :: l2 ∧ (∀ x ∈ l1, lineToPort x = none) ∧
        lineToPort ln = some p := by
  induction lines with
  | nil =>
    constructor
    · intro h
      simp [findPort] at h
    · rintro ⟨l1, ln, l2, hdec, -, -⟩
      simp at hdec
  | cons l rest ih =>
    cases hl : lineToPort l with
    | some q =>
      rw [findPort_cons_some l rest q hl]
      constructor
      · intro h
        injection h with h
        subst h
        exact ⟨[], l, rest, rfl, by simp, hl⟩
      · rintro ⟨l1, ln, l2, hdec, hnone, hln⟩
        cases l1 with
        | nil =>
          simp only [List.nil_append, List.cons.injEq] at hdec
          rw [← hdec.1, hl] at hln
          injection hln with hq
          rw [hq]
        | cons x l1rest =>
          simp only [List.cons_append, List.cons.injEq] at hdec
          have hx := hnone x (by simp)
          rw [← hdec.1, hl] at hx
          cases hx
    | none =>
      rw [findPort_cons_none l rest hl, ih]
      constructor
      · rintro ⟨l1, ln, l2, hdec, hnone, hln⟩
        refine ⟨l :: l1, ln, l2, by simp [hdec], ?_, hln⟩
        intro x hx
        rcases List.mem_cons.mp hx with h | h
        · rw [h]
          exact hl
        · exact hnone x h
      · rintro ⟨l1, ln, l2, hdec, hnone, hln⟩
        cases l1 with
        | nil =>
          simp only [List.nil_append, List.cons.injEq] at hdec
          rw [← hdec.1, hl] at hln
          cases hln
        | cons x l1rest =>
          simp only [List.cons_append, List.cons.injEq] at hdec
          exact ⟨l1rest, ln, l2, hdec.2,
            fun y hy => hnone y (List.mem_cons_of_mem x hy), hln⟩

theorem handshakeOutcome_some (lines : List (List Char)) (closed : Bool)
    (q : Int) (h : findPort lines = some q) :
    handshakeOutcome lines closed = .ok q := by
  unfold handshakeOutcome
  rw [h]

theorem handshakeOutcome_none (lines : List (List Char)) (closed : Bool)
    (h : findPort lines = none) :
    handshakeOutcome lines closed =
      (if closed then .error "agent exited without printing AGENT_PORT"
       else .error "timeout waiting for AGENT_PORT") := by
  unfold handshakeOutcome
  rw [h]

theorem handshakeOutcome_ok_iff (lines : List (List Char)) (closed : Bool)
    (p : Int) :
    handshakeOutcome lines closed = .ok p ↔ findPort lines = some p := by
  cases h : findPort lines with
  | some q =>
    rw [handshakeOutcome_some lines closed q h]
    simp
  | none =>
    rw [handshakeOutcome_none lines closed h]
    constructor
    · intro hc
      split at hc <;> cases hc
    · intro hc
      cases hc

/-- RecvAll passes an event prefix through to the terminator outcome. -/
theorem recvAll_events (evs : List Pb.TaskEvent) (rest : List RecvOutcome) :
    RecvAll (evs.map .event ++ rest) =
      (evs ++ (RecvAll rest).1, (RecvAll rest).2) := by
  induction evs with
  | nil => simp
  | cons e r ih =>
    simp [RecvAll, ih]

end RunnerM

/-- C1 (code-bug evidence): Stop during an in-flight Start sets Stopped, yet
the handshake failure path (setFailed, runner.go lines 239-245) still
unconditionally writes Failed afterwards — it is not a no-op as the claim
requires — while the exit monitor path does check the state and leaves a
stopped runner at Stopped. -/
theorem c1_setFailed_after_stop_writes_failed :
    (RunnerM.run [.startBegin, .stop,
      .setFailed "agent exited without printing AGENT_PORT"]).state =
        RunnerM.RState.failed ∧
    (RunnerM.run [.startBegin, .stop,
      .setFailed "agent exited without printing AGENT_PORT"]).state ≠
        RunnerM.RState.stopped ∧
    (RunnerM.run [.startBegin, .stop, .monitorExit none]).state =
      RunnerM.RState.stopped := by
  decide

/-- C2 counterexample: stopping a runner whose handshake timed out leaves
the old error visible in a Stopped snapshot, and restarting a previously
Running runner shows the previous generation's port in a Starting
snapshot — contradicting port-zero-until-handshake and
error-only-in-Failed. -/
theorem c2_counterexample_stale_status :
    ((RunnerM.run [.startBegin,
        .setFailed "timeout waiting for AGENT_PORT", .stop]).Status
        "s1" ["echo"]).state = "stopped" ∧
    ((RunnerM.run [.startBegin,
        .setFailed "timeout waiting for AGENT_PORT", .stop]).Status
        "s1" ["echo"]).error = "timeout waiting for AGENT_PORT" ∧
    ((RunnerM.run [.startBegin, .handshakeOk 45001, .connectOk, .stop,
        .startBegin]).Status "s1" ["echo"]).state = "starting" ∧
    ((RunnerM.run [.startBegin, .handshakeOk 45001, .connectOk, .stop,
        .startBegin]).Status "s1" ["echo"]).port = 45001 := by
  decide

/-- C2 (amended): the snapshot port is zero unless some handshake stored it
(its value is always a handshake-produced port), and a non-empty snapshot
error always carries the message of a failure transition of the trace; both
fields persist across Stop and restart, so Stopped and Starting snapshots
can show a previous generation's port and error. -/
theorem c2_status_snapshot (ops : List RunnerM.ROp) (name : String)
    (skills : List String) :
    (((RunnerM.run ops).Status name skills).port ≠ 0 →
      ∃ p, RunnerM.ROp.handshakeOk p ∈ ops ∧
        ((RunnerM.run ops).Status name skills).port = p) ∧
    (((RunnerM.run ops).Status name skills).error ≠ "" →
      ((RunnerM.run ops).Status name skills).error ∈ RunnerM.failMsgs ops) := by
  have hport : ((RunnerM.run ops).Status name skills).port =
      (RunnerM.run ops).port := rfl
  constructor
  · intro hp
    rcases RunnerM.foldl_port ops RunnerM.initRunner with h | ⟨p, hp2, h⟩
    · exact absurd (hport.trans h) hp
    · exact ⟨p, hp2, hport.trans h⟩
  · intro he
    cases herr : (RunnerM.run ops).err with
    | none =>
      have : ((RunnerM.run ops).Status name skills).error = "" := by
        unfold RunnerM.Runner.Status
        rw [herr]
      exact absurd this he
    | some e =>
      have hmsg : ((RunnerM.run ops).Status name skills).error = e := by
        unfold RunnerM.Runner.Status
        rw [herr]
      rcases RunnerM.foldl_err ops RunnerM.initRunner e herr with h | h
      · rw [hmsg]
        exact h
      · cases h
  
/-- Witness for C2 at a trace whose handshake stored port 5. -/
theorem c2_status_snapshot_witness :
    ((RunnerM.run [.startBegin, .handshakeOk 5]).Status "a" []).port ≠ 0 ∧
    (∃ p, RunnerM.ROp.handshakeOk p ∈
        [RunnerM.ROp.startBegin, RunnerM.ROp.handshakeOk 5] ∧
      ((RunnerM.run [.startBegin, .handshakeOk 5]).Status "a" []).port = p) :=
  ⟨by decide, (c2_status_snapshot [.startBegin, .handshakeOk 5] "a" []).1 (by decide)⟩

/-- C6 counterexample: the line AGENT_PORT=7x is not of the form
AGENT_PORT=(decimal) (spec-side matcher rejects it), yet the code's Sscanf
accepts it and the handshake resolves to port 7 instead of failing with the
premature-exit error when stdout closes.  The last two conjuncts pin the
Sscanf semantics: an out-of-int64-range numeral is rejected (strconv range
error) and a form-feed before the digits is skipped as white space. -/
theorem c6_counterexample_scanf_accepts_garbage :
    RunnerM.specStrictPort ("AGENT_PORT=7x".toList) = none ∧
    RunnerM.lineToPort ("AGENT_PORT=7x".toList) = some 7 ∧
    RunnerM.handshakeOutcome ["AGENT_PORT=7x".toList] true = .ok 7 ∧
    RunnerM.lineToPort ("AGENT_PORT=99999999999999999999".toList) = none ∧
    RunnerM.lineToPort ("AGENT_PORT=\x0C80".toList) = some 80 := by
  decide

/-- C6 (amended): the handshake resolves to the port of the first stdout
line whose prefix is AGENT_PORT= and whose remainder scans under Sscanf
(optional leading white space and sign, at least one decimal digit, value
within the 64-bit int range, trailing characters ignored), skipping all
other lines; if no line is accepted and stdout closed, Start fails with the
message "agent exited without printing AGENT_PORT", and with no accepted
line and no close within 15 seconds it fails with "timeout waiting for
AGENT_PORT"; both failure paths write Failed through setFailed. -/
theorem c6_handshake_first_match (lines : List (List Char)) (closed : Bool) :
    (∀ p : Int, RunnerM.handshakeOutcome lines closed = .ok p ↔
      ∃ l1 ln l2, lines = l1 ++ ln :: l2 ∧
        (∀ x ∈ l1, RunnerM.lineToPort x = none) ∧
        RunnerM.lineToPort ln = some p) ∧
    (RunnerM.findPort lines = none → closed = true →
      RunnerM.handshakeOutcome lines closed =
        .error "agent exited without printing AGENT_PORT") ∧
    (RunnerM.findPort lines = none → closed = false →
      RunnerM.handshakeOutcome lines closed =
        .error "timeout waiting for AGENT_PORT") ∧
    (∀ (r : RunnerM.Runner) (e : String),
      (r.applyOp (.setFailed e)).state = RunnerM.RState.failed ∧
      (r.applyOp (.setFailed e)).err = some e) := by
  refine ⟨fun p => (RunnerM.handshakeOutcome_ok_iff lines closed p).trans
      (RunnerM.findPort_some_iff lines p), ?_, ?_, ?_⟩
  · intro hf hc
    rw [RunnerM.handshakeOutcome_none lines closed hf, hc, if_pos rfl]
  · intro hf hc
    rw [RunnerM.handshakeOutcome_none lines closed hf, hc]
    rfl
  · intro r e
    rw [RunnerM.applyOp_setFailed]
    exact ⟨rfl, rfl⟩

/-- Witness for C6: a single non-matching line with stdout closed yields the
premature-exit error. -/
theorem c6_handshake_first_match_witness :
    RunnerM.findPort ["noise".toList] = none ∧
    RunnerM.handshakeOutcome ["noise".toList] true =
      .error "agent exited without printing AGENT_PORT" :=
  ⟨by decide, (c6_handshake_first_match ["noise".toList] true).2.1 (by decide) rfl⟩

/-- C7: when the runner is not Running or its client is absent, Execute and
Health return the not-running errors and leave the runner (state, port,
client, error) unchanged — they never transition state. -/
theorem c7_not_running_rejects (r : RunnerM.Runner) (name : String)
    (openErr : Option String) (stream : List RunnerM.RecvOutcome)
    (resp : Except String Pb.HealthResponse)
    (h : r.state ≠ RunnerM.RState.running ∨ r.client = false) :
    r.Execute name openErr stream =
      (r, ([], some ("agent " ++ name ++ " is not running (state: "
        ++ RunnerM.stateStr r.state ++ ")"))) ∧
    r.Health name resp = (r, .error ("agent " ++ name ++ " is not running")) := by
  unfold RunnerM.Runner.Execute RunnerM.Runner.Health
  rw [if_pos h, if_pos h]
  exact ⟨rfl, rfl⟩

/-- Witness for C7 at a stopped runner. -/
theorem c7_not_running_rejects_witness :
    ((⟨.stopped, 0, false, none⟩ : RunnerM.Runner).state ≠
        RunnerM.RState.running ∨
      (⟨.stopped, 0, false, none⟩ : RunnerM.Runner).client = false) ∧
    (⟨.stopped, 0, false, none⟩ : RunnerM.Runner).Execute "s1" none [] =
      (⟨.stopped, 0, false, none⟩,
        ([], some "agent s1 is not running (state: stopped)")) ∧
    (⟨.stopped, 0, false, none⟩ : RunnerM.Runner).Health "s1"
        (.ok ⟨[], []⟩) =
      (⟨.stopped, 0, false, none⟩, .error "agent s1 is not running") := by
  refine ⟨Or.inl (by decide), ?_⟩
  have := c7_not_running_rejects ⟨.stopped, 0, false, none⟩ "s1" none []
    (.ok ⟨[], []⟩) (Or.inl (by decide))
  exact this

/-- C9 counterexample: a child printing AGENT_PORT=0 is accepted by the
scanner, and the resulting trace reaches Running with port zero (the dial
is non-blocking and succeeds), refuting the non-zero-port invariant. -/
theorem c9_counterexample_zero_port :
    RunnerM.lineToPort ("AGENT_PORT=0".toList) = some 0 ∧
    RunnerM.wfTrace [.startBegin, .handshakeOk 0, .connectOk] = true ∧
    (RunnerM.run [.startBegin, .handshakeOk 0, .connectOk]).state =
      RunnerM.RState.running ∧
    (RunnerM.run [.startBegin, .handshakeOk 0, .connectOk]).port = 0 := by
  decide

/-- C9 (amended): Running implies a non-nil client, on every trace; and on
every trace respecting the Start control flow (connect only after a
handshake), Running additionally implies a non-zero port provided every
completed handshake carried a non-zero port — a handshake port of zero is
the one way Running can hold port zero. -/
theorem c9_running_invariant (ops : List RunnerM.ROp) :
    ((RunnerM.run ops).state = RunnerM.RState.running →
      (RunnerM.run ops).client = true) ∧
    (RunnerM.wfTrace ops = true →
      (∀ p, RunnerM.ROp.handshakeOk p ∈ ops → p ≠ 0) →
      (RunnerM.run ops).state = RunnerM.RState.running →
      (RunnerM.run ops).port ≠ 0) :=
  ⟨RunnerM.client_aux ops RunnerM.initRunner (by intro h; cases h),
    fun hwf hnz h =>
      (RunnerM.running_aux ops false RunnerM.initRunner hwf hnz
        (by intro h2; cases h2) (by intro h2; cases h2) h).2⟩

/-- Witness for C9: the client half at the zero-port trace itself, and the
port half at a successful start trace with port 45001. -/
theorem c9_running_invariant_witness :
    (RunnerM.run [.startBegin, .handshakeOk 0, .connectOk]).state =
      RunnerM.RState.running ∧
    (RunnerM.run [.startBegin, .handshakeOk 0, .connectOk]).client = true ∧
    RunnerM.wfTrace [.startBegin, .handshakeOk 45001, .connectOk] = true ∧
    (RunnerM.run [.startBegin, .handshakeOk 45001, .connectOk]).state =
      RunnerM.RState.running ∧
    (RunnerM.run [.startBegin, .handshakeOk 45001, .connectOk]).port ≠ 0 := by
  refine ⟨by decide,
    (c9_running_invariant [.startBegin, .handshakeOk 0, .connectOk]).1 (by decide),
    by decide, by decide,
    (c9_running_invariant [.startBegin, .handshakeOk 45001, .connectOk]).2
      (by decide) (by intro p hp; simp at hp; omega) (by decide)⟩

/-- C10: RecvAll returns the full ordered event sequence with no error when
the stream ends with EOF, and the prefix received before a mid-stream
failure together with that error; Runner.Execute in Running state with a
client returns exactly the RecvAll result. -/
theorem c10_recvAll_collects (evs : List Pb.TaskEvent)
    (junk : List RunnerM.RecvOutcome) (s : String) (r : RunnerM.Runner)
    (name : String) :
    RunnerM.RecvAll (evs.map .event ++ .eof :: junk) = (evs, none) ∧
    RunnerM.RecvAll (evs.map .event ++ .err s :: junk) = (evs, some s) ∧
    (r.state = RunnerM.RState.running → r.client = true →
      ∀ stream, r.Execute name none stream = (r, RunnerM.RecvAll stream)) := by
  refine ⟨?_, ?_, ?_⟩
  · rw [RunnerM.recvAll_events]
    simp [RunnerM.RecvAll]
  · rw [RunnerM.recvAll_events]
    simp [RunnerM.RecvAll]
  · intro h1 h2 stream
    unfold RunnerM.Runner.Execute
    rw [if_neg]
    push_neg
    exact ⟨h1, by simp [h2]⟩

/-- Witness for C10 on a two-event stream and a running runner. -/
theorem c10_recvAll_collects_witness :
    RunnerM.RecvAll ([(⟨[1], [2], [3]⟩ : Pb.TaskEvent),
        ⟨[1], [4], [5]⟩].map .event ++ .eof :: []) =
      ([⟨[1], [2], [3]⟩, ⟨[1], [4], [5]⟩], none) ∧
    (⟨.running, 7, true, none⟩ : RunnerM.Runner).state =
      RunnerM.RState.running ∧
    (⟨.running, 7, true, none⟩ : RunnerM.Runner).Execute "a" none [.eof] =
      (⟨.running, 7, true, none⟩, ([], none)) := by
  refine ⟨(c10_recvAll_collects [⟨[1], [2], [3]⟩, ⟨[1], [4], [5]⟩] [] "x"
      ⟨.running, 7, true, none⟩ "a").1, by decide, ?_⟩
  have := (c10_recvAll_collects [] [] "x" ⟨.running, 7, true, none⟩ "a").2.2
    rfl rfl [.eof]
  exact this
